import Mathlib

/-!
Verification of the shulkers-cli plugin resolution core.

This file embeds, as Lean definitions, the repository's result merger
(`getPluginByName` / `searchPlugins`), the disambiguation engine
(`processSearchResults`), the fuzzy filter helper (`fuzzySearch`), the
read-through TTL cache (`withCache`), and the Modrinth limit clamping
(`ensureValidLimit` and the limit handling of `ModrinthAPI`).

Modelling conventions:
- Records are loosely-typed JS objects carrying `name` (Spigot) or `title`
  (Modrinth); both are embedded as `Option String` fields.  JS truthiness of
  a name (`undefined` and `""` are falsy) is modelled explicitly: a missing
  field is `none`, and the `""` case is guarded exactly where the code
  guards it.
- `toLowerCase` is embedded per character on `List Char` via `Char.toLower`
  (the names involved are ASCII; this matches `String.toLowerCase` there).
- Fuse.js is an external library.  Its `fuse.search(query)` call is a
  parameter `fuse : FuseFn` producing scored results (score `none` never
  occurs with `includeScore: true`, but the code guards `score !==
  undefined`, so the guard is kept).  Scores are rationals on the 0..1
  scale; the 0.2 threshold is the rational 1/5.
- The process-wide mutable cache of `spigot.ts` / `modrinth.ts` is
  explicit-state: `withCache` takes and returns the cache.  A JS property
  assignment `cache[key] = entry` is embedded as a shadowing prepend, which
  is observationally identical through `cacheGet`.  A throwing `fetchData`
  is an `Except.error` result; the JS exception propagates before the store
  statement, so the cache passes through unchanged.
- Console rendering is out of scope; the decision taken by
  `processSearchResults` is reified as a `DisambiguationOutcome`, one
  constructor per terminal branch of the function, with the reason names of
  the specification (`ExactNameCollision` for the exact-match table branch,
  `FuzzyMultipleGood` for the "Multiple matches found" table branch,
  `NoGoodMatch` for the "No close matches found" branch).
-/

/-- Provenance tag, set by the merger: `{ ...result, source: "Spigot" }` or
`{ ...result, source: "Modrinth" }`. -/
inductive Source where
  | Spigot
  | Modrinth
deriving DecidableEq

/-- An untagged raw search result as delivered by one adapter.  Spigot rows
carry `name`, Modrinth rows carry `title`; either may be absent.  The `id`
stands for the rest of the payload and keeps records distinguishable. -/
structure RawResult where
  id : Nat
  name : Option String
  title : Option String
deriving DecidableEq

/-- A merged result: a raw result spread together with its `source` tag, as
built by `getPluginByName` in the info command and `searchPlugins` in the
search command. -/
structure ResultRecord where
  id : Nat
  name : Option String
  title : Option String
  source : Source
deriving DecidableEq

/-- The spread `{ ...result, source: s }`: all payload fields are kept and
the `source` field is set. -/
def tagResult (src : Source) (r : RawResult) : ResultRecord :=
  { id := r.id, name := r.name, title := r.title, source := src }

/-- The merge step of `getPluginByName` (info command, `allResults`) and of
`searchPlugins` (search command): Spigot results first, then Modrinth
results, each tagged with its source, in the received order. -/
def mergeResults (spigotResults modrinthResults : List RawResult) : List ResultRecord :=
  spigotResults.map (tagResult Source.Spigot) ++ modrinthResults.map (tagResult Source.Modrinth)

/-- One adapter call's observable outcome at the call site in
`getPluginByName`: it either throws (`error`), resolves to `null`
(`ok none`), or resolves to a result list. -/
def adapterContribution (outcome : Except Unit (Option (List RawResult))) : List RawResult :=
  match outcome with
  | .ok (some results) => results
  | .ok none => []
  | .error _ => []

/-- The result-gathering of `getPluginByName` for `source === "all"`: each
adapter call sits in its own try/catch whose catch block is empty, and its
result is used only under an `if (results)` truthiness guard, so a throwing
or null call contributes the initial `[]`; the merged list is then built
from the two contributions. -/
def getPluginByNameMerged (spigotOutcome modrinthOutcome : Except Unit (Option (List RawResult))) :
    List ResultRecord :=
  mergeResults (adapterContribution spigotOutcome) (adapterContribution modrinthOutcome)

/-- Per-character `toLowerCase` of a name, as a character list. -/
def lowerChars (s : String) : List Char := s.data.map Char.toLower

/-- Whether `needle` occurs at the head of `hay`. -/
def leadsWith : List Char → List Char → Bool
  | [], _ => true
  | _ :: _, [] => false
  | a :: as, b :: bs => a == b && leadsWith as bs

/-- Whether `needle` occurs contiguously anywhere in `hay`; this is the JS
`String.prototype.includes` on the embedded character lists. -/
def occursIn (needle : List Char) : List Char → Bool
  | [] => leadsWith needle []
  | h :: t => leadsWith needle (h :: t) || occursIn needle t

/-- The name the resolution code reads off a record:
`result.source === "Modrinth" ? result.title : result.name`. -/
def displayNameOf (r : ResultRecord) : Option String :=
  match r.source with
  | Source.Modrinth => r.title
  | Source.Spigot => r.name

/-- The exact-match predicate of `processSearchResults` and `fuzzySearch`:
`name && name.toLowerCase() === query.toLowerCase()`; a missing or empty
(falsy) name never matches. -/
def isExactMatch (query : String) (r : ResultRecord) : Bool :=
  match displayNameOf r with
  | some n => !(n == "") && (lowerChars n == lowerChars query)
  | none => false

/-- The containment predicate of the exact-match branch:
`name && name.toLowerCase().includes(query.toLowerCase())`. -/
def containsMatch (query : String) (r : ResultRecord) : Bool :=
  match displayNameOf r with
  | some n => !(n == "") && occursIn (lowerChars query) (lowerChars n)
  | none => false

/-- The frequency a lower-cased name has in the `nameMap` built over the
whole merged list (`nameMap.get(lowerName) || 0`): records with a falsy
name are skipped when the map is filled. -/
def countName (results : List ResultRecord) (lowerName : List Char) : Nat :=
  results.countP fun r =>
    match displayNameOf r with
    | some n => !(n == "") && (lowerChars n == lowerName)
    | none => false

/-- The `hasDuplicates` check on the best match:
`bestMatchName ? (nameMap.get(bestMatchName.toLowerCase()) || 0) > 1 : false`. -/
def hasDuplicateName (results : List ResultRecord) (r : ResultRecord) : Bool :=
  match displayNameOf r with
  | some n => if n == "" then false else decide (countName results (lowerChars n) > 1)
  | none => false

/-- The score Fuse.js attaches to a hit, 0 best to 1 worst.  The default
filtering threshold of `fuzzySearch`, 0.2, as the rational 1/5. -/
def defaultThreshold : ℚ := ⟨1, 5, by decide, Nat.coprime_one_left 5⟩

/-- The external `fuse.search(query)` call over a collection: a list of
hits, each an item of the collection paired with its score.  Fuse.js is a
third-party library, so this is the interface boundary of the embedding. -/
def FuseFn : Type :=
  String → List ResultRecord → List (ResultRecord × Option ℚ)

/-- Options of the `fuzzySearch` helper. -/
structure FuzzySearchOptions where
  threshold : Option ℚ
  includeAllOnNoMatch : Option Bool

/-- `options.threshold || 0.2`: an absent threshold, and also the falsy
number 0, fall back to 0.2. -/
def thresholdOf (options : FuzzySearchOptions) : ℚ :=
  match options.threshold with
  | some t => if t == 0 then defaultThreshold else t
  | none => defaultThreshold

/-- `options.includeAllOnNoMatch !== false`. -/
def includeAllOf (options : FuzzySearchOptions) : Bool :=
  options.includeAllOnNoMatch != some false

/-- The score filter `result.score !== undefined && result.score < threshold`. -/
def scoreBelow (score : Option ℚ) (threshold : ℚ) : Bool :=
  match score with
  | some s => decide (s < threshold)
  | none => false

/-- The comparator passed to `Array.prototype.sort` in `fuzzySearch`:
Spigot before Modrinth, 0 otherwise. -/
def compareBySource (a b : ResultRecord) : Int :=
  if a.source == Source.Spigot && b.source == Source.Modrinth then -1
  else if a.source == Source.Modrinth && b.source == Source.Spigot then 1
  else 0

/-- Stable insertion with respect to `compareBySource`: an element is
placed before the first element it does not have to follow.  Together with
`sortBySource` this realises the (specified-stable) JS sort with that
comparator. -/
def insertBySource (x : ResultRecord) : List ResultRecord → List ResultRecord
  | [] => [x]
  | y :: ys => if compareBySource x y ≤ 0 then x :: y :: ys else y :: insertBySource x ys

/-- The stable sort `[...filteredResults].sort(comparator)`:
`compareBySource` is a consistent total preorder on the two-valued `source`
field, so the stable sorted permutation is unique and this insertion sort
computes it. -/
def sortBySource : List ResultRecord → List ResultRecord
  | [] => []
  | x :: xs => insertBySource x (sortBySource xs)

/-- Return shape of the `fuzzySearch` helper. -/
structure FuzzySearchResult where
  results : List ResultRecord
  bestMatch : Option ResultRecord
  hasGoodMatch : Bool
  allResults : List ResultRecord
deriving DecidableEq

/-- The `fuzzySearch` helper of `src/helpers/search.ts`, with the external
Fuse.js call abstracted as `fuse`.  Branch for branch: the exact-match
short cut, the single-element short cut, then the Fuse pass with score
filtering, the source-stable sort, the best-match extraction from the head
of the Fuse results, and the `includeAllOnNoMatch` fallback. -/
def fuzzySearch (fuse : FuseFn) (query : String) (items : List ResultRecord)
    (options : FuzzySearchOptions) : FuzzySearchResult :=
  let threshold := thresholdOf options
  let includeAll := includeAllOf options
  match items.find? (fun item => isExactMatch query item) with
  | some exactMatch =>
    { results := [exactMatch], bestMatch := some exactMatch,
      hasGoodMatch := true, allResults := items }
  | none =>
    if items.length == 1 then
      { results := items, bestMatch := items.head?,
        hasGoodMatch := true, allResults := items }
    else
      let fuseResults := fuse query items
      let filteredResults :=
        (fuseResults.filter fun res => scoreBelow res.2 threshold).map fun res => res.1
      let sortedResults := sortBySource filteredResults
      let bestMatch :=
        match fuseResults with
        | [] => none
        | first :: _ =>
          match first.2 with
          | some s => if s < threshold then some first.1 else none
          | none => none
      let hasGoodMatch := !sortedResults.isEmpty
      { results := if hasGoodMatch then sortedResults
                   else if includeAll then items else [],
        bestMatch := bestMatch, hasGoodMatch := hasGoodMatch, allResults := items }

/-- The threshold-filtered Fuse hits of the fuzzy pass, in Fuse result
order, before the source-stable sort. -/
def thresholdFiltered (fuse : FuseFn) (query : String) (items : List ResultRecord) :
    List ResultRecord :=
  ((fuse query items).filter fun res => scoreBelow res.2 defaultThreshold).map fun res => res.1

/-- The fuzzy-kept set as `processSearchResults` receives it when any hit
survives the 0.2 filter: the threshold-filtered hits, source-sorted. -/
def fuzzyKept (fuse : FuseFn) (query : String) (items : List ResultRecord) :
    List ResultRecord :=
  sortBySource (thresholdFiltered fuse query items)

/-- Reason attached to a multi-candidate outcome. -/
inductive MatchReason where
  | ExactNameCollision
  | FuzzyMultipleGood
  | NoGoodMatch
deriving DecidableEq

/-- The decision `processSearchResults` takes, one constructor per terminal
branch. -/
inductive DisambiguationOutcome where
  | Empty
  | SingleMatch (record : ResultRecord)
  | CandidateSet (records : List ResultRecord) (reason : MatchReason)
deriving DecidableEq

/-- The disambiguation engine `processSearchResults` of the info command,
with rendering reified as the returned outcome.  Branch for branch: the
empty check, the exact-match branch widening to containment matches, the
single-element fast path, the `fuzzySearch` call with `{ threshold: 0.2 }`,
and the final decision on `searchResults.results` with the duplicate-name
check on the best match. -/
def processSearchResults (fuse : FuseFn) (query : String)
    (allResults : List ResultRecord) : DisambiguationOutcome :=
  match allResults with
  | [] => DisambiguationOutcome.Empty
  | first :: rest =>
    let results := first :: rest
    let exactMatches := results.filter fun r => isExactMatch query r
    if exactMatches.length ≥ 1 then
      DisambiguationOutcome.CandidateSet (results.filter fun r => containsMatch query r)
        MatchReason.ExactNameCollision
    else if results.length == 1 then
      DisambiguationOutcome.SingleMatch first
    else
      let searchResults := fuzzySearch fuse query results ⟨some defaultThreshold, none⟩
      match searchResults.results with
      | [] => DisambiguationOutcome.CandidateSet results MatchReason.NoGoodMatch
      | bestMatch :: others =>
        if others.isEmpty && !hasDuplicateName results bestMatch then
          DisambiguationOutcome.SingleMatch bestMatch
        else
          DisambiguationOutcome.CandidateSet (bestMatch :: others)
            MatchReason.FuzzyMultipleGood

/-- One cache slot: `{ timestamp, data }`. -/
structure CacheEntry (T : Type) where
  timestamp : Int
  data : T
deriving DecidableEq

/-- `CACHE_TTL = 5 * 60 * 1000` milliseconds. -/
def CACHE_TTL : Int := 5 * 60 * 1000

/-- The process-wide `cache` object, as explicit state. -/
abbrev Cache (T : Type) : Type := List (String × CacheEntry T)

/-- Property read `cache[key]`. -/
def cacheGet {T : Type} (cache : Cache T) (key : String) : Option (CacheEntry T) :=
  List.lookup key cache

/-- Property write `cache[key] = entry`, embedded as a shadowing prepend:
through `cacheGet` this is the JS overwrite. -/
def cacheSet {T : Type} (cache : Cache T) (key : String) (entry : CacheEntry T) : Cache T :=
  (key, entry) :: cache

/-- The `withCache` memoizer of `spigot.ts` (and, identically, of
`modrinth.ts`): return the cached data when an entry exists and is younger
than `CACHE_TTL`, otherwise run `fetchData` and store its result under
`now`.  A failing `fetchData` propagates as the error before any store
happens, so the state passes through unchanged. -/
def withCache {T E : Type} (now : Int) (key : String) (fetchData : Except E T)
    (cache : Cache T) : Except E T × Cache T :=
  match cacheGet cache key with
  | some entry =>
    if now - entry.timestamp < CACHE_TTL then
      (Except.ok entry.data, cache)
    else
      match fetchData with
      | .ok data => (Except.ok data, cacheSet cache key ⟨now, data⟩)
      | .error e => (Except.error e, cache)
  | none =>
    match fetchData with
    | .ok data => (Except.ok data, cacheSet cache key ⟨now, data⟩)
    | .error e => (Except.error e, cache)

/-- `ensureValidLimit` of `modrinth.ts`: `Math.max(1, Math.min(100, value))`. -/
def ensureValidLimit (value : Int) : Int := max 1 (min 100 value)

/-- The limit defaulting of `ModrinthAPI`: `limit ? limit : 10`, where an
absent limit and the falsy number 0 both fall back to 10. -/
def modrinthMaxResults (limit : Option Int) : Int :=
  match limit with
  | some n => if n == 0 then 10 else n
  | none => 10

/-- The limit `ModrinthAPI` actually sends to the catalog:
`ensureValidLimit(maxResults)`. -/
def modrinthEffectiveLimit (limit : Option Int) : Int :=
  ensureValidLimit (modrinthMaxResults limit)

/-! Helper lemmas about the source-stable sort. -/

theorem insertBySource_of_spigot (x : ResultRecord) (l : List ResultRecord)
    (hx : x.source = Source.Spigot) : insertBySource x l = x :: l := by
  cases l with
  | nil => rfl
  | cons y ys =>
    have hc : compareBySource x y ≤ 0 := by
      unfold compareBySource
      split
      · omega
      · split
        · rename_i h2
          simp [hx] at h2
        · omega
    simp [insertBySource, hc]

theorem insertBySource_of_modrinth (x : ResultRecord) (s m : List ResultRecord)
    (hx : x.source = Source.Modrinth)
    (hs : ∀ y ∈ s, y.source = Source.Spigot)
    (hm : ∀ z ∈ m, z.source = Source.Modrinth) :
    insertBySource x (s ++ m) = s ++ x :: m := by
  induction s with
  | nil =>
    cases m with
    | nil => rfl
    | cons z zs =>
      have hz := hm z (by simp)
      have hc : compareBySource x z ≤ 0 := by
        unfold compareBySource
        split
        · omega
        · split
          · rename_i h2
            simp [hz] at h2
          · omega
      simp [insertBySource, hc]
  | cons y ys ih =>
    have hy := hs y (by simp)
    have hc : ¬ compareBySource x y ≤ 0 := by
      unfold compareBySource
      split
      · rename_i h1
        simp [hx] at h1
      · split
        · omega
        · rename_i h1 h2
          simp [hx, hy] at h2
    simp only [List.cons_append, insertBySource, if_neg hc, List.append_eq]
    rw [ih (fun a ha => hs a (by simp [ha]))]

theorem sortBySource_eq_partition (l : List ResultRecord) :
    sortBySource l = (l.filter fun r => r.source == Source.Spigot)
      ++ (l.filter fun r => r.source == Source.Modrinth) := by
  induction l with
  | nil => rfl
  | cons x xs ih =>
    cases hx : x.source with
    | Spigot =>
      rw [sortBySource, ih, insertBySource_of_spigot x _ hx]
      simp [List.filter_cons, hx]
    | Modrinth =>
      rw [sortBySource, ih, insertBySource_of_modrinth x _ _ hx]
      · simp [List.filter_cons, hx]
      · intro y hy
        simpa using (List.mem_filter.mp hy).2
      · intro z hz
        simpa using (List.mem_filter.mp hz).2

theorem mem_sortBySource (r : ResultRecord) (l : List ResultRecord) :
    r ∈ sortBySource l ↔ r ∈ l := by
  rw [sortBySource_eq_partition]
  constructor
  · intro h
    rcases List.mem_append.mp h with h' | h'
    · exact (List.mem_filter.mp h').1
    · exact (List.mem_filter.mp h').1
  · intro h
    cases hr : r.source with
    | Spigot => exact List.mem_append.mpr (Or.inl (List.mem_filter.mpr ⟨h, by simp [hr]⟩))
    | Modrinth => exact List.mem_append.mpr (Or.inr (List.mem_filter.mpr ⟨h, by simp [hr]⟩))

/-! Characterization of the fuzzy stage when the two short cuts do not fire. -/

theorem thresholdOf_at_default : thresholdOf ⟨some defaultThreshold, none⟩ = defaultThreshold := by
  simp [thresholdOf]

theorem includeAllOf_at_default : includeAllOf ⟨some defaultThreshold, none⟩ = true := by
  decide

theorem fuzzySearch_results_no_exact (fuse : FuseFn) (query : String)
    (items : List ResultRecord)
    (hnoex : ∀ r ∈ items, isExactMatch query r = false)
    (hlen : items.length ≠ 1) :
    (fuzzySearch fuse query items ⟨some defaultThreshold, none⟩).results =
      if (fuzzyKept fuse query items).isEmpty then items else fuzzyKept fuse query items := by
  have hfind : items.find? (fun item => isExactMatch query item) = none :=
    List.find?_eq_none.mpr fun x hx => by simp [hnoex x hx]
  have hbeq : (items.length == 1) = false := by
    simpa using hlen
  unfold fuzzySearch
  rw [hfind, hbeq]
  simp only [thresholdOf_at_default, includeAllOf_at_default, fuzzyKept, thresholdFiltered]
  cases hk : (sortBySource (((fuse query items).filter fun res =>
      scoreBelow res.2 defaultThreshold).map fun res => res.1)).isEmpty <;>
    simp [hk]

theorem processSearchResults_fuzzy_branch (fuse : FuseFn) (query : String)
    (results : List ResultRecord)
    (hlen : 2 ≤ results.length)
    (hnoex : ∀ r ∈ results, isExactMatch query r = false) :
    processSearchResults fuse query results =
      match fuzzyKept fuse query results with
      | [] => DisambiguationOutcome.CandidateSet results MatchReason.FuzzyMultipleGood
      | b :: m =>
        if m.isEmpty && !hasDuplicateName results b then
          DisambiguationOutcome.SingleMatch b
        else
          DisambiguationOutcome.CandidateSet (b :: m) MatchReason.FuzzyMultipleGood := by
  cases results with
  | nil => simp at hlen
  | cons a l =>
    cases l with
    | nil => simp at hlen
    | cons c l2 =>
      have hfe : ((a :: c :: l2).filter fun r => isExactMatch query r) = [] :=
        List.filter_eq_nil_iff.mpr fun x hx => by simp [hnoex x hx]
      have hres := fuzzySearch_results_no_exact fuse query (a :: c :: l2) hnoex (by simp)
      have h1 : (((a :: c :: l2).length == 1) = false) := by simp
      unfold processSearchResults
      simp only [hfe, h1, List.length_nil, ge_iff_le, Nat.not_succ_le_zero, if_false,
        Bool.false_eq_true, hres]
      cases hk : fuzzyKept fuse query (a :: c :: l2) with
      | nil => simp [hk]
      | cons b m => simp [hk]

/-- Claim C1: for every non-empty merged record list and every query, if at
least one record's display name equals the query case-insensitively, then
`processSearchResults` returns the candidate set of all records whose
display name contains the query as a case-insensitive substring, with
reason `ExactNameCollision`.  The statement holds for every `fuse` and
every list length, so this branch precedes both the single-element fast
path and the fuzzy pass, and a one-element superset still yields a
`CandidateSet`. -/
theorem C1_exact_superset_collision (fuse : FuseFn) (query : String)
    (results : List ResultRecord) (hne : results ≠ [])
    (hex : ∃ r ∈ results, isExactMatch query r = true) :
    processSearchResults fuse query results =
      DisambiguationOutcome.CandidateSet (results.filter fun r => containsMatch query r)
        MatchReason.ExactNameCollision := by
  cases results with
  | nil => exact absurd rfl hne
  | cons a l =>
    have hpos : 1 ≤ ((a :: l).filter fun r => isExactMatch query r).length := by
      obtain ⟨r, hr, hpr⟩ := hex
      have hm : r ∈ (a :: l).filter fun r => isExactMatch query r :=
        List.mem_filter.mpr ⟨hr, hpr⟩
      exact List.length_pos.mpr (List.ne_nil_of_mem hm)
    unfold processSearchResults
    simp only [ge_iff_le, if_pos hpos]

/-- Claim C1 witness: a one-record list whose single record matches the
query exactly produces a one-element `CandidateSet`, not a `SingleMatch`. -/
theorem C1_exact_superset_collision_witness :
    processSearchResults (fun _ _ => []) "worldedit"
        [(⟨1, some "WorldEdit", none, Source.Spigot⟩ : ResultRecord)] =
      DisambiguationOutcome.CandidateSet
        [(⟨1, some "WorldEdit", none, Source.Spigot⟩ : ResultRecord)]
        MatchReason.ExactNameCollision := by
  have h := C1_exact_superset_collision (fun _ _ => []) "worldedit"
    [(⟨1, some "WorldEdit", none, Source.Spigot⟩ : ResultRecord)] (by decide) (by decide)
  exact h.trans (by decide)

/-- Claim C2 counterexample: with the single record
`{name: "WorldEdit", source: Spigot}` and the query `"worldedit"` the code
takes the exact-match branch first and returns a one-element
`CandidateSet(ExactNameCollision)`, not the `SingleMatch` the claim
states. -/
theorem C2_counterexample :
    processSearchResults (fun _ _ => []) "worldedit"
        [(⟨1, some "WorldEdit", none, Source.Spigot⟩ : ResultRecord)] =
      DisambiguationOutcome.CandidateSet
        [(⟨1, some "WorldEdit", none, Source.Spigot⟩ : ResultRecord)]
        MatchReason.ExactNameCollision
    ∧ processSearchResults (fun _ _ => []) "worldedit"
        [(⟨1, some "WorldEdit", none, Source.Spigot⟩ : ResultRecord)] ≠
      DisambiguationOutcome.SingleMatch (⟨1, some "WorldEdit", none, Source.Spigot⟩ : ResultRecord) := by
  exact ⟨by decide, by decide⟩

/-- Claim C2 as amended: for a merged list of exactly one record whose
display name does not equal the query case-insensitively, the
single-element fast path returns `SingleMatch` of that record, for every
`fuse` (no score check gates this path). -/
theorem C2_single_element_fast_path (fuse : FuseFn) (query : String)
    (r : ResultRecord) (hnx : isExactMatch query r = false) :
    processSearchResults fuse query [r] = DisambiguationOutcome.SingleMatch r := by
  unfold processSearchResults
  simp [List.filter_cons, hnx]

/-- Claim C2 amended witness: the fast path at a concrete non-exact query. -/
theorem C2_single_element_fast_path_witness :
    processSearchResults (fun _ _ => []) "worldedi"
        [(⟨1, some "WorldEdit", none, Source.Spigot⟩ : ResultRecord)] =
      DisambiguationOutcome.SingleMatch (⟨1, some "WorldEdit", none, Source.Spigot⟩ : ResultRecord) :=
  C2_single_element_fast_path (fun _ _ => []) "worldedi"
    (⟨1, some "WorldEdit", none, Source.Spigot⟩ : ResultRecord) (by decide)

/-- Claim C3: at the claim's own scenario — two records `Foo` and `Bar`, an
unmatched query, the fuzzy pass keeping nothing — the code returns the
entire unfiltered merged list, but under the `FuzzyMultipleGood` branch
("Multiple matches found"), not the `NoGoodMatch` branch: because
`fuzzySearch` is called without `includeAllOnNoMatch: false`, an empty kept
set is replaced by the full item list inside the helper, so
`processSearchResults`'s `NoGoodMatch` branch is unreachable for lists of
two or more records. -/
theorem C3_no_good_match_unreachable :
    processSearchResults (fun _ _ => []) "zzz-unmatched"
        [(⟨1, some "Foo", none, Source.Spigot⟩ : ResultRecord),
         (⟨2, none, some "Bar", Source.Modrinth⟩ : ResultRecord)] =
      DisambiguationOutcome.CandidateSet
        [(⟨1, some "Foo", none, Source.Spigot⟩ : ResultRecord),
         (⟨2, none, some "Bar", Source.Modrinth⟩ : ResultRecord)]
        MatchReason.FuzzyMultipleGood
    ∧ processSearchResults (fun _ _ => []) "zzz-unmatched"
        [(⟨1, some "Foo", none, Source.Spigot⟩ : ResultRecord),
         (⟨2, none, some "Bar", Source.Modrinth⟩ : ResultRecord)] ≠
      DisambiguationOutcome.CandidateSet
        [(⟨1, some "Foo", none, Source.Spigot⟩ : ResultRecord),
         (⟨2, none, some "Bar", Source.Modrinth⟩ : ResultRecord)]
        MatchReason.NoGoodMatch := by
  exact ⟨by decide, by decide⟩

/-- Claim C10 counterexample: for the requested limit 0 the effective
Modrinth limit is 10 (the JS falsy default), not
`max(1, min(100, 0)) = 1` as the claim's formula states. -/
theorem C10_counterexample :
    modrinthEffectiveLimit (some 0) = 10
    ∧ modrinthEffectiveLimit (some 0) ≠ max 1 (min 100 0) := by
  exact ⟨by decide, by decide⟩

/-- Claim C10 as amended: for every requested non-zero limit `n` the
effective limit sent to the catalog is `max(1, min(100, n))`; when no limit
is supplied, or the supplied limit is the falsy number 0, the default 10 is
used (and then clamps to itself). -/
theorem C10_limit_clamped (n : Int) :
    (n ≠ 0 → modrinthEffectiveLimit (some n) = max 1 (min 100 n))
    ∧ modrinthEffectiveLimit none = 10
    ∧ modrinthEffectiveLimit (some 0) = 10 := by
  refine ⟨fun hn => ?_, by decide, by decide⟩
  have hb : (n == 0) = false := by simpa using hn
  simp [modrinthEffectiveLimit, modrinthMaxResults, ensureValidLimit, hb]

/-- Claim C10 amended witness: an over-range limit clamps to 100. -/
theorem C10_limit_clamped_witness :
    modrinthEffectiveLimit (some 250) = 100 := by
  have h := (C10_limit_clamped 250).1 (by decide)
  exact h.trans (by decide)

theorem processSearchResults_fuzzy_nil (fuse : FuseFn) (query : String)
    (results : List ResultRecord)
    (hlen : 2 ≤ results.length)
    (hnoex : ∀ r ∈ results, isExactMatch query r = false)
    (hk : fuzzyKept fuse query results = []) :
    processSearchResults fuse query results =
      DisambiguationOutcome.CandidateSet results MatchReason.FuzzyMultipleGood := by
  rw [processSearchResults_fuzzy_branch fuse query results hlen hnoex, hk]

theorem processSearchResults_fuzzy_cons (fuse : FuseFn) (query : String)
    (results : List ResultRecord) (b : ResultRecord) (m : List ResultRecord)
    (hlen : 2 ≤ results.length)
    (hnoex : ∀ r ∈ results, isExactMatch query r = false)
    (hk : fuzzyKept fuse query results = b :: m) :
    processSearchResults fuse query results =
      if m.isEmpty && !hasDuplicateName results b then
        DisambiguationOutcome.SingleMatch b
      else
        DisambiguationOutcome.CandidateSet (b :: m) MatchReason.FuzzyMultipleGood := by
  rw [processSearchResults_fuzzy_branch fuse query results hlen hnoex, hk]

/-- Claim C4 counterexample: a fuzzy-kept set consisting of exactly one
record with no display name (possible since Fuse.js also scores the
`author` and `description` keys) yields `SingleMatch` although that
record's lower-cased display name does not occur exactly once in the
frequency map — it has no display name at all, so the claim's biconditional
fails in the forward direction. -/
theorem C4_counterexample :
    processSearchResults
        (fun _ _ => [((⟨1, none, none, Source.Spigot⟩ : ResultRecord),
          some (⟨1, 10, by decide, Nat.coprime_one_left 10⟩ : ℚ))])
        "plugin"
        [(⟨1, none, none, Source.Spigot⟩ : ResultRecord),
         (⟨2, some "Zebra", none, Source.Spigot⟩ : ResultRecord)] =
      DisambiguationOutcome.SingleMatch (⟨1, none, none, Source.Spigot⟩ : ResultRecord)
    ∧ ¬∃ n : String,
        displayNameOf (⟨1, none, none, Source.Spigot⟩ : ResultRecord) = some n
        ∧ countName [(⟨1, none, none, Source.Spigot⟩ : ResultRecord),
            (⟨2, some "Zebra", none, Source.Spigot⟩ : ResultRecord)] (lowerChars n) = 1 := by
  refine ⟨by decide, ?_⟩
  rintro ⟨n, hn, -⟩
  exact Option.noConfusion hn

/-- Claim C4 as amended: in the fuzzy branch (no exact match, at least two
records), the outcome is `SingleMatch r` iff the fuzzy-kept set is exactly
`[r]` and the code's duplicate check on `r` is negative; the check is
negative exactly when `r`'s lower-cased display name occurs exactly once in
the frequency map over the entire merged list whenever `r` has a truthy
display name, but it is also (vacuously) negative when `r` has no display
name.  With a non-empty kept set that is not such a singleton, the outcome
is `CandidateSet(keptSet, FuzzyMultipleGood)`. -/
theorem C4_fuzzy_single_match_decision (fuse : FuseFn) (query : String)
    (results : List ResultRecord)
    (hlen : 2 ≤ results.length)
    (hnoex : ∀ r ∈ results, isExactMatch query r = false) :
    (∀ r, processSearchResults fuse query results = DisambiguationOutcome.SingleMatch r ↔
      (fuzzyKept fuse query results = [r] ∧ hasDuplicateName results r = false))
    ∧ (∀ b m, fuzzyKept fuse query results = b :: m →
        (m ≠ [] ∨ hasDuplicateName results b = true) →
        processSearchResults fuse query results =
          DisambiguationOutcome.CandidateSet (b :: m) MatchReason.FuzzyMultipleGood)
    ∧ (∀ r ∈ results, ∀ n, displayNameOf r = some n → (n == "") = false →
        (hasDuplicateName results r = false ↔ countName results (lowerChars n) = 1)) := by
  refine ⟨?_, ?_, ?_⟩
  · intro r
    rcases hk : fuzzyKept fuse query results with _ | ⟨b, m⟩
    · rw [processSearchResults_fuzzy_nil fuse query results hlen hnoex hk]
      constructor
      · intro h
        exact DisambiguationOutcome.noConfusion h
      · rintro ⟨h, -⟩
        exact List.noConfusion h
    · rw [processSearchResults_fuzzy_cons fuse query results b m hlen hnoex hk]
      by_cases hcond : (m.isEmpty && !hasDuplicateName results b) = true
      · rw [if_pos hcond]
        have hsplit : m.isEmpty = true ∧ (!hasDuplicateName results b) = true := by
          simpa using hcond
        have hm : m = [] := by
          simpa [List.isEmpty_iff] using hsplit.1
        have hd : hasDuplicateName results b = false := by
          simpa using hsplit.2
        subst hm
        constructor
        · intro h
          cases h
          exact ⟨rfl, hd⟩
        · rintro ⟨h, -⟩
          cases h
          rfl
      · rw [if_neg hcond]
        constructor
        · intro h
          exact DisambiguationOutcome.noConfusion h
        · rintro ⟨h, hdup⟩
          cases h
          exact absurd (by simp [hdup]) hcond
  · intro b m hk hor
    rw [processSearchResults_fuzzy_cons fuse query results b m hlen hnoex hk]
    have hcond : (m.isEmpty && !hasDuplicateName results b) = false := by
      rcases hor with hm | hd
      · simp [List.isEmpty_iff, hm]
      · simp [hd]
    rw [hcond]
    simp
  · intro r hr n hn hne
    have hcount : 0 < countName results (lowerChars n) := by
      rw [countName]
      exact List.countP_pos_iff.mpr ⟨r, hr, by simp [hn, hne]⟩
    rw [hasDuplicateName, hn]
    simp only [hne, Bool.false_eq_true, if_false, decide_eq_false_iff_not, not_lt]
    omega

/-- Claim C4 amended witness: a unique fuzzy hit with a unique name (the
specification's Scenario 3) resolves to `SingleMatch`, via the amended
biconditional. -/
theorem C4_fuzzy_single_match_decision_witness :
    processSearchResults
        (fun _ _ => [((⟨1, some "EssentialsX", none, Source.Spigot⟩ : ResultRecord),
          some (⟨1, 10, by decide, Nat.coprime_one_left 10⟩ : ℚ))])
        "essential"
        [(⟨1, some "EssentialsX", none, Source.Spigot⟩ : ResultRecord),
         (⟨2, none, some "WorldGuard", Source.Modrinth⟩ : ResultRecord)] =
      DisambiguationOutcome.SingleMatch
        (⟨1, some "EssentialsX", none, Source.Spigot⟩ : ResultRecord) := by
  have h := (C4_fuzzy_single_match_decision
    (fun _ _ => [((⟨1, some "EssentialsX", none, Source.Spigot⟩ : ResultRecord),
      some (⟨1, 10, by decide, Nat.coprime_one_left 10⟩ : ℚ))])
    "essential"
    [(⟨1, some "EssentialsX", none, Source.Spigot⟩ : ResultRecord),
     (⟨2, none, some "WorldGuard", Source.Modrinth⟩ : ResultRecord)]
    (by decide) (by decide)).1
    (⟨1, some "EssentialsX", none, Source.Spigot⟩ : ResultRecord)
  exact h.mpr ⟨by decide, by decide⟩

/-- Claim C5: for every `listA` of length `m` and `listB` of length `n`,
the merged list has length `m + n`; its first `m` entries are the `listA`
records in their original order tagged Spigot, its last `n` entries are the
`listB` records in their original order tagged Modrinth; tagging sets the
`source` field once at merge time and leaves the payload unchanged, and no
re-sorting happens (the take/drop equalities are with the input lists
themselves, mapped through the tagger). -/
theorem C5_merge_order_invariant (listA listB : List RawResult) :
    (mergeResults listA listB).length = listA.length + listB.length
    ∧ (mergeResults listA listB).take listA.length = listA.map (tagResult Source.Spigot)
    ∧ (mergeResults listA listB).drop listA.length = listB.map (tagResult Source.Modrinth)
    ∧ ∀ (src : Source) (raw : RawResult),
        (tagResult src raw).source = src ∧ (tagResult src raw).id = raw.id
        ∧ (tagResult src raw).name = raw.name ∧ (tagResult src raw).title = raw.title := by
  refine ⟨?_, ?_, ?_, fun src raw => ⟨rfl, rfl, rfl, rfl⟩⟩
  · simp [mergeResults]
  · rw [mergeResults]
    exact List.take_left' (by simp)
  · rw [mergeResults]
    exact List.drop_left' (by simp)

/-- Claim C6: a `withCache` call finding an entry younger than the 5-minute
TTL returns its data with the state untouched, independently of the
supplied compute action (so `compute` is not invoked); a call finding no
entry, or an entry 5 minutes old or older, returns the fresh compute result
and overwrites the slot with it at the current timestamp; and a store for
one key leaves every other key's entry unchanged (entries are never
proactively evicted, only overwritten on access). -/
theorem C6_cache_ttl_read_through {T : Type} (now : Int) (key : String)
    (f g : Except Unit T) (c : Cache T) :
    (∀ e, cacheGet c key = some e → now - e.timestamp < CACHE_TTL →
      withCache now key f c = (Except.ok e.data, c)
      ∧ withCache now key f c = withCache now key g c)
    ∧ (cacheGet c key = none → ∀ v, f = Except.ok v →
      withCache now key f c = (Except.ok v, cacheSet c key ⟨now, v⟩))
    ∧ (∀ e, cacheGet c key = some e → CACHE_TTL ≤ now - e.timestamp → ∀ v, f = Except.ok v →
      withCache now key f c = (Except.ok v, cacheSet c key ⟨now, v⟩))
    ∧ (∀ (entry : CacheEntry T) (k' : String), k' ≠ key →
      cacheGet (cacheSet c key entry) k' = cacheGet c k') := by
  refine ⟨?_, ?_, ?_, ?_⟩
  · intro e he httl
    have h1 : withCache now key f c = (Except.ok e.data, c) := by
      simp only [withCache, he]
      rw [if_pos httl]
    have h2 : withCache now key g c = (Except.ok e.data, c) := by
      simp only [withCache, he]
      rw [if_pos httl]
    exact ⟨h1, h1.trans h2.symm⟩
  · intro hn v hv
    simp only [withCache, hn, hv]
  · intro e he httl v hv
    simp only [withCache, he, hv]
    rw [if_neg (by omega)]
  · intro entry k' hk
    have hb : (k' == key) = false := by simpa using hk
    simp [cacheGet, cacheSet, List.lookup, hb]

/-- Claim C6 witness: a concrete fresh hit returns the cached 42 without
storing, and a concrete expired entry is overwritten in place by the fresh
compute result 7. -/
theorem C6_cache_ttl_read_through_witness :
    withCache 1000 "k" (Except.ok 7 : Except Unit Nat) [("k", ⟨0, 42⟩)] =
      (Except.ok 42, [("k", ⟨0, 42⟩)])
    ∧ withCache 400000 "k" (Except.ok 7 : Except Unit Nat) [("k", ⟨0, 42⟩)] =
      (Except.ok 7, [("k", ⟨400000, 7⟩), ("k", ⟨0, 42⟩)]) := by
  constructor
  · exact ((C6_cache_ttl_read_through 1000 "k" (Except.ok 7) (Except.ok 7)
      [("k", ⟨0, 42⟩)]).1 ⟨0, 42⟩ rfl (by decide)).1
  · exact (C6_cache_ttl_read_through 400000 "k" (Except.ok 7) (Except.ok 7)
      [("k", ⟨0, 42⟩)]).2.2.1 ⟨0, 42⟩ rfl (by decide) 7 rfl

/-- Claim C7: when the compute action is actually invoked (no valid cache
entry exists for the key), its failure propagates to the caller as the
error and the cache state passes through completely unchanged — no entry is
written with the failed result. -/
theorem C7_error_propagates_no_write {T E : Type} (now : Int) (key : String)
    (err : E) (c : Cache T)
    (hmiss : cacheGet c key = none
      ∨ ∃ e, cacheGet c key = some e ∧ CACHE_TTL ≤ now - e.timestamp) :
    withCache now key (Except.error err : Except E T) c = (Except.error err, c) := by
  rcases hmiss with hn | ⟨e, he, httl⟩
  · simp only [withCache, hn]
  · simp only [withCache, he]
    rw [if_neg (by omega)]

/-- Claim C7 witness: a failing fetch on an empty cache errors out and
leaves the cache empty. -/
theorem C7_error_propagates_no_write_witness :
    withCache 0 "k" (Except.error () : Except Unit Nat) [] = (Except.error (), []) :=
  C7_error_propagates_no_write 0 "k" () [] (Or.inl rfl)

/-- Claim C8: when one adapter call throws or resolves to null while the
other returns `k` records, the failed source contributes the empty list,
and the merged list is exactly the `k` successful records, all tagged with
the successful source; `getPluginByNameMerged` is a total function of the
two adapter outcomes (the per-adapter catch blocks absorb the throw), so no
exception reaches the resolution flow's caller. -/
theorem C8_adapter_failure_degrades (sA sB : Except Unit (Option (List RawResult)))
    (lA lB : List RawResult) :
    ((sB = Except.error () ∨ sB = Except.ok none) → adapterContribution sB = [])
    ∧ (sA = Except.ok (some lA) → (sB = Except.error () ∨ sB = Except.ok none) →
        getPluginByNameMerged sA sB = lA.map (tagResult Source.Spigot)
        ∧ (getPluginByNameMerged sA sB).length = lA.length
        ∧ ∀ r ∈ getPluginByNameMerged sA sB, r.source = Source.Spigot)
    ∧ (sB = Except.ok (some lB) → (sA = Except.error () ∨ sA = Except.ok none) →
        getPluginByNameMerged sA sB = lB.map (tagResult Source.Modrinth)
        ∧ (getPluginByNameMerged sA sB).length = lB.length
        ∧ ∀ r ∈ getPluginByNameMerged sA sB, r.source = Source.Modrinth) := by
  refine ⟨?_, ?_, ?_⟩
  · rintro (rfl | rfl) <;> rfl
  · rintro rfl (rfl | rfl) <;>
    · refine ⟨by simp [getPluginByNameMerged, mergeResults, adapterContribution], by
        simp [getPluginByNameMerged, mergeResults, adapterContribution], ?_⟩
      intro r hr
      simp only [getPluginByNameMerged, mergeResults, adapterContribution,
        List.map_nil, List.append_nil] at hr
      obtain ⟨raw, -, rfl⟩ := List.mem_map.mp hr
      rfl
  · rintro rfl (rfl | rfl) <;>
    · refine ⟨by simp [getPluginByNameMerged, mergeResults, adapterContribution], by
        simp [getPluginByNameMerged, mergeResults, adapterContribution], ?_⟩
      intro r hr
      simp only [getPluginByNameMerged, mergeResults, adapterContribution,
        List.map_nil, List.nil_append] at hr
      obtain ⟨raw, -, rfl⟩ := List.mem_map.mp hr
      rfl

/-- Claim C8 witness: SourceB throws while SourceA returns 3 records — the
merged list is exactly those 3 records tagged Spigot. -/
theorem C8_adapter_failure_degrades_witness :
    getPluginByNameMerged
        (Except.ok (some [⟨1, some "A", none⟩, ⟨2, some "B", none⟩, ⟨3, some "C", none⟩]))
        (Except.error ()) =
      [(⟨1, some "A", none, Source.Spigot⟩ : ResultRecord),
       ⟨2, some "B", none, Source.Spigot⟩, ⟨3, some "C", none, Source.Spigot⟩] := by
  have h := ((C8_adapter_failure_degrades
    (Except.ok (some [⟨1, some "A", none⟩, ⟨2, some "B", none⟩, ⟨3, some "C", none⟩]))
    (Except.error ())
    [⟨1, some "A", none⟩, ⟨2, some "B", none⟩, ⟨3, some "C", none⟩] []).2.1
    rfl (Or.inl rfl)).1
  exact h.trans (by decide)

/-- Claim C9: in the fuzzy branch, the kept set contains exactly the
records carrying a Fuse score strictly below the 0.2 threshold; it equals
the threshold-filtered hit list (which is in Fuse result order) split
stably by provenance — every Spigot record first, then every Modrinth
record, each group preserving the pre-sort relative order (so the final
kept set is not ordered by score); and when non-empty it is exactly what
`fuzzySearch` hands back as `results`. -/
theorem C9_fuzzy_kept_filter_and_sort (fuse : FuseFn) (query : String)
    (items : List ResultRecord)
    (hnoex : ∀ r ∈ items, isExactMatch query r = false)
    (hlen : items.length ≠ 1) :
    (∀ r, r ∈ fuzzyKept fuse query items ↔
      ∃ s : ℚ, (r, some s) ∈ fuse query items ∧ s < defaultThreshold)
    ∧ fuzzyKept fuse query items =
        (thresholdFiltered fuse query items).filter (fun r => r.source == Source.Spigot)
        ++ (thresholdFiltered fuse query items).filter (fun r => r.source == Source.Modrinth)
    ∧ (fuzzyKept fuse query items ≠ [] →
        (fuzzySearch fuse query items ⟨some defaultThreshold, none⟩).results =
          fuzzyKept fuse query items) := by
  refine ⟨?_, sortBySource_eq_partition _, ?_⟩
  · intro r
    rw [fuzzyKept, mem_sortBySource, thresholdFiltered]
    constructor
    · intro h
      obtain ⟨p, hp, hp1⟩ := List.mem_map.mp h
      obtain ⟨hpF, hps⟩ := List.mem_filter.mp hp
      rcases hsc : p.2 with _ | s
      · rw [hsc] at hps
        simp [scoreBelow] at hps
      · refine ⟨s, ?_, ?_⟩
        · have hpe : (p.1, some s) = p := by
            rw [← hsc]
          rw [← hp1, hpe]
          exact hpF
        · rw [hsc] at hps
          simpa [scoreBelow] using hps
    · rintro ⟨s, hmem, hs⟩
      exact List.mem_map.mpr ⟨(r, some s),
        List.mem_filter.mpr ⟨hmem, by simp [scoreBelow, hs]⟩, rfl⟩
  · intro hne
    rw [fuzzySearch_results_no_exact fuse query items hnoex hlen]
    rcases hk : fuzzyKept fuse query items with _ | ⟨b, m⟩
    · exact absurd hk hne
    · simp

/-- Claim C9 witness: three records with mixed provenance and Fuse scores
0.1 (Modrinth "Bar"), 0.125 (Spigot "Baz"), 0.5 (Spigot "Foo"): the kept
set drops "Foo", and the stable source sort returns Spigot "Baz" before
Modrinth "Bar", each group keeping the Fuse order. -/
theorem C9_fuzzy_kept_filter_and_sort_witness :
    (fuzzySearch
        (fun _ _ => [((⟨2, none, some "Bar", Source.Modrinth⟩ : ResultRecord),
            some (⟨1, 10, by decide, Nat.coprime_one_left 10⟩ : ℚ)),
          ((⟨3, some "Baz", none, Source.Spigot⟩ : ResultRecord),
            some (⟨1, 8, by decide, Nat.coprime_one_left 8⟩ : ℚ)),
          ((⟨1, some "Foo", none, Source.Spigot⟩ : ResultRecord),
            some (⟨1, 2, by decide, Nat.coprime_one_left 2⟩ : ℚ))])
        "ba"
        [(⟨1, some "Foo", none, Source.Spigot⟩ : ResultRecord),
         (⟨2, none, some "Bar", Source.Modrinth⟩ : ResultRecord),
         (⟨3, some "Baz", none, Source.Spigot⟩ : ResultRecord)]
        ⟨some defaultThreshold, none⟩).results =
      [(⟨3, some "Baz", none, Source.Spigot⟩ : ResultRecord),
       (⟨2, none, some "Bar", Source.Modrinth⟩ : ResultRecord)] := by
  have h := (C9_fuzzy_kept_filter_and_sort
    (fun _ _ => [((⟨2, none, some "Bar", Source.Modrinth⟩ : ResultRecord),
        some (⟨1, 10, by decide, Nat.coprime_one_left 10⟩ : ℚ)),
      ((⟨3, some "Baz", none, Source.Spigot⟩ : ResultRecord),
        some (⟨1, 8, by decide, Nat.coprime_one_left 8⟩ : ℚ)),
      ((⟨1, some "Foo", none, Source.Spigot⟩ : ResultRecord),
        some (⟨1, 2, by decide, Nat.coprime_one_left 2⟩ : ℚ))])
    "ba"
    [(⟨1, some "Foo", none, Source.Spigot⟩ : ResultRecord),
     (⟨2, none, some "Bar", Source.Modrinth⟩ : ResultRecord),
     (⟨3, some "Baz", none, Source.Spigot⟩ : ResultRecord)]
    (by decide) (by decide)).2.2 (by decide)
  exact h.trans (by decide)
